import Mathlib

/-!
Shallow embedding of the core of `age-plugin-yubikey` (files `src/p256.rs`,
`src/format.rs`, `src/yubikey.rs`), used to check the natural-language
specification against the code.  Bytes are modelled as `Nat` (with `< 256`
side conditions where they matter), byte strings as `List Nat`, and Rust
strings as their byte lists.  Fallible Rust code returns `Option`/`Except`;
code that can panic (out-of-range indexing, `unwrap`, `assert_eq!`,
`copy_from_slice` length mismatches) returns values in `PRes`, whose
`panic` constructor marks a Rust panic.
-/

set_option maxRecDepth 8000

/-- Result of a Rust computation that can panic. -/
inductive PRes (α : Type) where
  | panic
  | val (a : α)
deriving DecidableEq, Repr

/-- Big-endian interpretation of a byte string as a natural number
(`FieldElement::from_bytes` in the `p256` crate reads SEC-1 coordinates
big-endian). -/
def beNat (bs : List Nat) : Nat :=
  bs.foldl (fun a b => a * 256 + b) 0

/-- Helper for `natToBe32`: peel `k` base-256 digits off `n`, least
significant first, accumulating them in big-endian order. -/
def natToBeAux : Nat → Nat → List Nat → List Nat
  | 0, _, acc => acc
  | k + 1, n, acc => natToBeAux k (n / 256) (n % 256 :: acc)

/-- The 32-byte big-endian encoding of a field element, as produced by
`FieldElement::to_bytes` in the `p256` crate. -/
def natToBe32 (n : Nat) : List Nat :=
  natToBeAux 32 n []

/-- Modular exponentiation by square-and-multiply, with explicit fuel so
that it is structurally recursive (the fuel strictly bounds the number of
halvings of the exponent). -/
def powModF : Nat → Nat → Nat → Nat → Nat
  | 0, _, _, m => 1 % m
  | f + 1, b, e, m =>
    if e = 0 then 1 % m
    else
      let r := powModF f (b * b % m) (e / 2) m
      if e % 2 = 1 then r * b % m else r

/-- The NIST P-256 field prime, from the `p256` crate used by
`src/p256.rs`. -/
def p256_P : Nat :=
  0xFFFFFFFF00000001000000000000000000000000FFFFFFFFFFFFFFFFFFFFFFFF

/-- The NIST P-256 curve coefficient `b` (the curve is
`y^2 = x^3 - 3x + b`). -/
def p256_B : Nat :=
  0x5AC635D8AA3A93E7B3EBBD55769886BC651D06B0CC53B0F63BCE3C3E27D2604B

/-- Right-hand side `x^3 - 3x + b` of the P-256 curve equation, reduced
mod `p`. -/
def p256_rhs (x : Nat) : Nat :=
  (x ^ 3 + (p256_P - 3) * x + p256_B) % p256_P

/-- Square-root candidate in the P-256 field: since `p ≡ 3 (mod 4)` the
`p256` crate computes square roots as `a^((p+1)/4)`; the result squares
back to `a` exactly when `a` is a quadratic residue. -/
def p256_sqrtCand (a : Nat) : Nat :=
  powModF 300 a ((p256_P + 1) / 4) p256_P

/-- Whether a point `(x, y)` given as natural numbers lies on the P-256
curve (coordinates in range and satisfying the curve equation). -/
def p256_on_curve (x y : Nat) : Bool :=
  decide (x < p256_P) && decide (y < p256_P) && (y * y % p256_P == p256_rhs x)

/-- Whether a compressed SEC-1 x-coordinate (32 big-endian bytes)
decompresses to an on-curve point: this is the check performed by
`EncodedPoint::decompress` / `AffinePoint::decompress` in the `p256`
crate (field-range check on `x`, then square-root of `x^3 - 3x + b`). -/
def p256_decompress_ok (x : List Nat) : Bool :=
  let X := beNat x
  decide (X < p256_P) &&
    (let r := p256_rhs X
     let y := p256_sqrtCand r
     y * y % p256_P == r)

/-- The x-coordinate of the P-256 base point, used as a concrete valid
compressed point in witnesses. -/
def p256_GX : Nat :=
  0x6B17D1F2E12C4247F8BCE6E563A440F277037D812DEB33A0F4A13945D898C296

/-- A SEC-1 `EncodedPoint<NistP256>` from the `elliptic-curve` crate: the
identity encoding (single `0x00` byte), a compressed encoding (sign byte
`0x02`/`0x03` plus 32 x-coordinate bytes), or an uncompressed encoding
(`0x04` plus 32 + 32 coordinate bytes). -/
inductive SecPoint where
  | identity
  | compressed (sign : Nat) (x : List Nat)
  | uncompressed (x y : List Nat)
deriving DecidableEq, Repr

/-- Byte serialization of an `EncodedPoint` (`EncodedPoint::as_bytes`). -/
def SecPoint.bytes : SecPoint → List Nat
  | .identity => [0]
  | .compressed s x => s :: x
  | .uncompressed x y => 4 :: (x ++ y)

/-- Parsing of an `EncodedPoint` from bytes (`EncodedPoint::from_bytes`):
accepts exactly the identity encoding, a 33-byte compressed encoding with
sign byte 2 or 3, or a 65-byte uncompressed encoding with tag byte 4.  No
on-curve validation happens here. -/
def SecPoint.fromBytes (bs : List Nat) : Option SecPoint :=
  match bs with
  | [] => none
  | t :: rest =>
    if t = 0 then
      if rest = [] then some .identity else none
    else if t = 2 ∨ t = 3 then
      if rest.length = 32 then some (.compressed t rest) else none
    else if t = 4 then
      if rest.length = 64 then
        some (.uncompressed (rest.take 32) (rest.drop 32))
      else none
    else none

/-- Model of `EncodedPoint::is_compressed`. -/
def SecPoint.isCompressed : SecPoint → Bool
  | .compressed _ _ => true
  | _ => false

/-- Model of `EncodedPoint::compress`: an uncompressed point keeps its
x-coordinate and records the parity of `y` in the sign byte; identity and
already-compressed points are unchanged. -/
def SecPoint.compress : SecPoint → SecPoint
  | .identity => .identity
  | .compressed s x => .compressed s x
  | .uncompressed x y => .compressed (2 + beNat y % 2) x

/-- Model of `EncodedPoint::decompress`: defined (only) on valid compressed
points, producing the uncompressed encoding whose `y` parity matches the
sign byte; on the identity or an uncompressed encoding the crate returns
a `CtOption` in its none state. -/
def SecPoint.decompressE : SecPoint → Option SecPoint
  | .identity => none
  | .uncompressed _ _ => none
  | .compressed s x =>
    let X := beNat x
    if X < p256_P then
      let r := p256_rhs X
      let y := p256_sqrtCand r
      if y * y % p256_P = r then
        let y' := if y % 2 = s % 2 then y else p256_P - y
        some (.uncompressed x (natToBe32 y'))
      else none
    else none

/-- Wrapper around a compressed secp256r1 curve point
(`Recipient` in `src/p256.rs`). -/
structure Recipient where
  point : SecPoint
deriving DecidableEq, Repr

/-- Model of `Recipient::from_pubkey` (`src/p256.rs` lines 31-41): a compressed
encoding is accepted exactly when it decompresses to an on-curve point;
any other successfully parsed encoding (uncompressed — with no on-curve
validation — or the identity) is accepted and normalized via
`compress`. -/
def Recipient.from_pubkey (pubkey : SecPoint) : Option Recipient :=
  match pubkey with
  | .compressed s x =>
    if p256_decompress_ok x then some ⟨.compressed s x⟩ else none
  | .identity => some ⟨SecPoint.identity.compress⟩
  | .uncompressed x y => some ⟨(SecPoint.uncompressed x y).compress⟩

/-- Model of `Recipient::from_bytes` (`src/p256.rs` lines 26-28). -/
def Recipient.from_bytes (bs : List Nat) : Option Recipient :=
  match SecPoint.fromBytes bs with
  | some pt => Recipient.from_pubkey pt
  | none => none

/-- Model of `Recipient::as_bytes`. -/
def Recipient.as_bytes (r : Recipient) : List Nat :=
  r.point.bytes

/-- Model of `Recipient::decompress` (`src/p256.rs` lines 58-60): unwraps the
`CtOption`, so it panics when the stored point does not decompress. -/
def Recipient.decompress (r : Recipient) : PRes SecPoint :=
  match r.point.decompressE with
  | some pt => .val pt
  | none => .panic

/-- The standard base64 alphabet (`base64::STANDARD_NO_PAD`): the ASCII
code of the character encoding a 6-bit value. -/
def b64chr (v : Nat) : Nat :=
  if v < 26 then 65 + v
  else if v < 52 then 71 + v
  else if v < 62 then v - 4
  else if v = 62 then 43
  else 47

/-- Inverse of the standard base64 alphabet: the 6-bit value of an ASCII
code, or `none` for a character outside the alphabet. -/
def b64val (c : Nat) : Option Nat :=
  if 65 ≤ c ∧ c ≤ 90 then some (c - 65)
  else if 97 ≤ c ∧ c ≤ 122 then some (c - 71)
  else if 48 ≤ c ∧ c ≤ 57 then some (c + 4)
  else if c = 43 then some 62
  else if c = 47 then some 63
  else none

/-- Model of `base64::encode_config(_, STANDARD_NO_PAD)`: three input bytes per
four output characters, with a final group of two or three characters for
one or two trailing bytes, and no padding. -/
def b64encode : List Nat → List Nat
  | [] => []
  | [b1] => [b64chr (b1 / 4), b64chr (b1 % 4 * 16)]
  | [b1, b2] => [b64chr (b1 / 4), b64chr (b1 % 4 * 16 + b2 / 16), b64chr (b2 % 16 * 4)]
  | b1 :: b2 :: b3 :: rest =>
    b64chr (b1 / 4) :: b64chr (b1 % 4 * 16 + b2 / 16) ::
      b64chr (b2 % 16 * 4 + b3 / 64) :: b64chr (b3 % 64) :: b64encode rest

/-- Unpadded base64 decoding as performed by
`base64::decode_config_slice(_, STANDARD_NO_PAD, _)`: rejects characters
outside the alphabet, input lengths `≡ 1 (mod 4)`, and non-zero trailing
bits in the final character (`DecodeError::InvalidLastSymbol`). -/
def b64decode : List Nat → Option (List Nat)
  | [] => some []
  | [c1, c2] =>
    match b64val c1, b64val c2 with
    | some v1, some v2 =>
      if v2 % 16 = 0 then some [v1 * 4 + v2 / 16] else none
    | _, _ => none
  | [c1, c2, c3] =>
    match b64val c1, b64val c2, b64val c3 with
    | some v1, some v2, some v3 =>
      if v3 % 4 = 0 then some [v1 * 4 + v2 / 16, v2 % 16 * 16 + v3 / 4] else none
    | _, _, _ => none
  | c1 :: c2 :: c3 :: c4 :: rest =>
    match b64val c1, b64val c2, b64val c3, b64val c4, b64decode rest with
    | some v1, some v2, some v3, some v4, some tl =>
      some ((v1 * 4 + v2 / 16) :: (v2 % 16 * 16 + v3 / 4) :: (v3 % 4 * 64 + v4) :: tl)
    | _, _, _, _, _ => none
  | [_] => none

/-- A generic age stanza record (`age_core::format::Stanza`): type tag,
argument strings and binary body, with strings modelled as byte lists. -/
structure Stanza where
  tag : List Nat
  args : List (List Nat)
  body : List Nat
deriving DecidableEq, Repr

/-- Modelled from the spec: the fixed scheme tag `STANZA_TAG` is declared
in the crate root, which is not among the provided source files; the spec
fixes only that it is a fixed, scheme-specific tag string, and every
claim depends on its identity alone, not its spelling.  We use the ASCII
bytes of "piv-p256". -/
def STANZA_TAG : List Nat := [112, 105, 118, 45, 112, 50, 53, 54]

/-- The HKDF context label `STANZA_KEY_LABEL` from `src/format.rs`
line 14: the ASCII bytes of "age-encryption.org/v1/piv-p256". -/
def STANZA_KEY_LABEL : List Nat :=
  [97, 103, 101, 45, 101, 110, 99, 114, 121, 112, 116, 105, 111, 110, 46,
   111, 114, 103, 47, 118, 49, 47, 112, 105, 118, 45, 112, 50, 53, 54]

/-- Model of `TAG_BYTES` from `src/format.rs`. -/
def TAG_BYTES : Nat := 4

/-- Model of `EPK_BYTES` from `src/format.rs`. -/
def EPK_BYTES : Nat := 33

/-- Model of `ENCRYPTED_FILE_KEY_BYTES` from `src/format.rs` line 18. -/
def ENCRYPTED_FILE_KEY_BYTES : Nat := 32

/-- Model of `FILE_KEY_BYTES` from `age_core::format`: an age file key is 16
bytes (128 bits). -/
def FILE_KEY_BYTES : Nat := 16

/-- Model of `RecipientLine` from `src/format.rs` lines 21-25. -/
structure RecipientLine where
  tag : List Nat
  epk : Recipient
  encrypted_file_key : List Nat
deriving DecidableEq, Repr

/-- Decidable equality for `Except`, needed to evaluate parser results
on concrete inputs. -/
instance {ε α : Type} [DecidableEq ε] [DecidableEq α] : DecidableEq (Except ε α) :=
  fun a b =>
    match a, b with
    | .error x, .error y =>
      if h : x = y then isTrue (by rw [h])
      else isFalse (fun hc => by cases hc; exact h rfl)
    | .ok x, .ok y =>
      if h : x = y then isTrue (by rw [h])
      else isFalse (fun hc => by cases hc; exact h rfl)
    | .error _, .ok _ => isFalse (fun hc => by cases hc)
    | .ok _, .error _ => isFalse (fun hc => by cases hc)

/-- The `From<RecipientLine> for Stanza` conversion (`src/format.rs`
lines 27-38): tag and ephemeral key are emitted as unpadded base64
arguments, the encrypted file key as the raw body. -/
def RecipientLine.toStanza (r : RecipientLine) : Stanza :=
  { tag := STANZA_TAG
    args := [b64encode r.tag, b64encode r.epk.as_bytes]
    body := r.encrypted_file_key }

/-- The `base64_arg` helper inside `RecipientLine::from_stanza`
(`src/format.rs` lines 46-55): requires the argument's length to be the
exact unpadded-base64 length for an `n`-byte buffer, then decodes into
that buffer (`decode_config_slice` fails when the output overflows the
buffer, and leaves any unwritten suffix zeroed). -/
def base64_arg (arg : List Nat) (n : Nat) : Option (List Nat) :=
  if arg.length ≠ (4 * n + 2) / 3 then none
  else
    match b64decode arg with
    | some bs =>
      if bs.length ≤ n then some (bs ++ List.replicate (n - bs.length) 0) else none
    | none => none

/-- Model of `RecipientLine::from_stanza` (`src/format.rs` lines 41-75).  Note the
body conversion `s.body[..].try_into().ok()?`: its `?` operator
propagates `None` out of `from_stanza` itself, so a matching stanza whose
tag and ephemeral-key arguments are well-formed but whose body is not
exactly 32 bytes yields `None`, not `Some(Err(..))`. -/
def RecipientLine.from_stanza (s : Stanza) : Option (Except Unit RecipientLine) :=
  if s.tag ≠ STANZA_TAG then none
  else
    let tag := (s.args.get? 0).bind (fun a => base64_arg a TAG_BYTES)
    let epk := ((s.args.get? 1).bind (fun a => base64_arg a EPK_BYTES)).bind
      Recipient.from_bytes
    match tag, epk with
    | some t, some e =>
      if s.body.length = ENCRYPTED_FILE_KEY_BYTES then
        some (.ok { tag := t, epk := e, encrypted_file_key := s.body })
      else none
    | _, _ => some (.error ())

/-- Parameters supplied to `RecipientLine::wrap_file_key` by its
cryptographic collaborators: the ephemeral public key produced by
`ring`'s RNG-backed key generation (a 65-byte uncompressed SEC-1
encoding), the raw ECDH shared secret produced inside `agree_ephemeral`,
and the `age_core` primitives `hkdf` (salt, label, input keying
material) and `aead_encrypt` (key, plaintext). -/
structure WrapEnv where
  eskPubBytes : List Nat
  sharedSecret : List Nat
  hkdf : List Nat → List Nat → List Nat → List Nat
  aead_encrypt : List Nat → List Nat → List Nat

/-- The wrapping-key derivation performed on the wrap side
(`src/format.rs` lines 87-93): HKDF over the salt
`epk.as_bytes() || pk.as_bytes()` with the fixed label. -/
def wrapWrappingKey (hkdf : List Nat → List Nat → List Nat → List Nat)
    (epk pk : Recipient) (sharedSecret : List Nat) : List Nat :=
  hkdf (epk.as_bytes ++ pk.as_bytes) STANZA_KEY_LABEL sharedSecret

/-- Model of `RecipientLine::wrap_file_key` (`src/format.rs` lines 77-107),
parameterized over `WrapEnv` and over the fingerprint function
`Recipient::tag` (whose SHA-256/bech32 internals live in dependency
code).  Panics are those of the source: the `expect` on parsing the
ephemeral public key, the `unwrap` inside `Recipient::decompress` on the
recipient, and `copy_from_slice` when the AEAD output is not exactly
`ENCRYPTED_FILE_KEY_BYTES` long. -/
def RecipientLine.wrap_file_key (env : WrapEnv)
    (tagFn : Recipient → List Nat)
    (file_key : List Nat) (pk : Recipient) : PRes RecipientLine :=
  match Recipient.from_bytes env.eskPubBytes with
  | none => .panic
  | some epk =>
    match pk.decompress with
    | .panic => .panic
    | .val _ =>
      let enc_key := wrapWrappingKey env.hkdf epk pk env.sharedSecret
      let ct := env.aead_encrypt enc_key file_key
      if ct.length = ENCRYPTED_FILE_KEY_BYTES then
        .val { tag := tagFn pk, epk := epk, encrypted_file_key := ct }
      else .panic

/-- Little-endian interpretation of a byte string as a natural number
(`u32::from_le_bytes`). -/
def leNat (bs : List Nat) : Nat :=
  bs.foldr (fun b a => a * 256 + b) 0

/-- Model of `u32::to_le_bytes` of a serial number. -/
def serialToLe (s : Nat) : List Nat :=
  [s % 256, s / 256 % 256, s / 256 ^ 2 % 256, s / 256 ^ 3 % 256]

/-- Model of `RetiredSlotId::try_from(u8)` from the `yubikey-piv` crate succeeds
exactly on the PIV retired-slot codes `0x82` (R1) through `0x95`
(R20). -/
def recognizedSlot (b : Nat) : Bool :=
  decide (0x82 ≤ b) && decide (b ≤ 0x95)

/-- Model of `Stub` from `src/yubikey.rs` lines 130-135: device serial, slot
code, key fingerprint, and the transient in-memory identity index. -/
structure Stub where
  serial : Nat
  slot : Nat
  tag : List Nat
  identity_index : Nat
deriving DecidableEq, Repr

/-- Model of `Stub::to_bytes` (`src/yubikey.rs` lines 168-174): 4-byte
little-endian serial, 1-byte slot code, 4-byte fingerprint. -/
def Stub.to_bytes (s : Stub) : List Nat :=
  serialToLe s.serial ++ [s.slot] ++ s.tag

/-- The `PartialEq` impl for `Stub` (`src/yubikey.rs` lines 137-141):
equality of the serialized bytes only, so the identity index does not
participate. -/
def Stub.beq (a b : Stub) : Bool :=
  a.to_bytes == b.to_bytes

/-- Model of `Stub::from_bytes` (`src/yubikey.rs` lines 157-166), with the
source's evaluation order made explicit: `bytes[0..4]` panics on buffers
shorter than 4, `bytes[4]` panics on buffers shorter than 5, an
unrecognized slot code returns `None` via `try_into().ok()?`, and
`bytes[5..9]` panics on buffers shorter than 9.  No check rejects
buffers longer than 9 bytes. -/
def Stub.from_bytes (bytes : List Nat) (identity_index : Nat) : PRes (Option Stub) :=
  if bytes.length < 4 then .panic
  else
    let serial := leNat (bytes.take 4)
    if bytes.length < 5 then .panic
    else
      let slotByte := bytes.getD 4 0
      if ¬ recognizedSlot slotByte then .val none
      else if bytes.length < 9 then .panic
      else .val (some { serial := serial, slot := slotByte,
                        tag := (bytes.drop 5).take 4,
                        identity_index := identity_index })

/-- Model of `Stub::matches` (`src/yubikey.rs` lines 183-185). -/
def Stub.matches (s : Stub) (line : RecipientLine) : Bool :=
  s.tag == line.tag

/-- Outcome of one `Readers::open()`/`YubiKey::open_by_serial` probe. -/
inductive OpenRes where
  | found (handle : Nat)
  | notFound
  | otherErr
deriving DecidableEq, Repr

/-- Result of the device-presence wait. -/
inductive WaitRes where
  | ok (t : Nat)
  | timedOut
deriving DecidableEq, Repr

/-- The polling loop of `wait_for_readers` (`src/yubikey.rs` lines
32-46), modelled over an idealized clock counted in tenths of a second:
each iteration probes for a device at time `t` (probing and the elapsed
check take no model time, `sleep(ONE_SECOND)` advances the clock by 10
tenths).  The loop first checks presence, then returns `TimedOut` when
at least 150 tenths (15 seconds) have elapsed, and otherwise sleeps and
repeats.  The returned list records every probe time.  The fuel
argument only bounds the recursion; from `wait_for_readers` it is large
enough that the fuel-0 case is reached exactly at `t = 150`, where the
source's elapsed check makes the same decision. -/
def waitGo (present : Nat → Bool) : Nat → Nat → WaitRes × List Nat
  | 0, t => if present t then (.ok t, [t]) else (.timedOut, [t])
  | f + 1, t =>
    if present t then (.ok t, [t])
    else if 150 ≤ t then (.timedOut, [t])
    else
      let r := waitGo present f (t + 10)
      (r.1, t :: r.2)

/-- Model of `wait_for_readers` (`src/yubikey.rs` lines 32-46): the 15-second
timer starts at the first probe. -/
def wait_for_readers (present : Nat → Bool) : WaitRes × List Nat :=
  waitGo present 15 0

/-- The `subject_pki` of a certificate read from a slot
(`yubikey_piv::certificate::PublicKeyInfo`): either a P-256 public key
or some other key type. -/
inductive PubKeyInfo where
  | ecP256 (pt : SecPoint)
  | other
deriving DecidableEq, Repr

/-- Outcome of `Certificate::read(..)` followed by `subject_pki()`. -/
inductive CertRes where
  | err
  | ok (info : PubKeyInfo)
deriving DecidableEq, Repr

/-- The per-identity error kinds surfaced by `Stub::connect`
(`identity::Error::Identity` with the respective message). -/
inductive IdErr where
  | couldNotFind
  | couldNotOpen
  | timedOutInsert
  | stubMismatch
  | pinRequired
  | invalidPin
deriving DecidableEq, Repr

/-- A per-identity error: the identity index plus the message kind. -/
structure IdentityError where
  index : Nat
  kind : IdErr
deriving DecidableEq, Repr

/-- Model of `Connection` from `src/yubikey.rs` lines 292-297. -/
structure Connection where
  yubikey : Nat
  pk : Recipient
  slot : Nat
  tag : List Nat
deriving DecidableEq, Repr

/-- Environment for `Stub::connect`: results of the device probes
(first `open_by_serial`, then one probe per loop iteration at time `t`
tenths), the interactive callbacks (`message` acknowledgement and
`request_secret` PIN response, `none` meaning the user declined), the
certificate read, `verify_pin`, and the fingerprint function
`Recipient::tag`. -/
structure ConnEnv where
  first : OpenRes
  openAt : Nat → OpenRes
  msgAck : Bool
  certRead : CertRes
  pinResponse : Option (List Nat)
  pinOk : List Nat → Bool
  tagFn : Recipient → List Nat

/-- The insertion-wait loop inside `Stub::connect` (`src/yubikey.rs`
lines 207-236): same cadence and ceiling as `wait_for_readers`, but each
probe is `YubiKey::open_by_serial`, whose non-`NotFound` errors abort
immediately with a per-identity error. -/
def connectWaitGo (openAt : Nat → OpenRes) : Nat → Nat → Except IdErr Nat
  | 0, t =>
    match openAt t with
    | .found h => .ok h
    | .notFound => .error .timedOutInsert
    | .otherErr => .error .couldNotOpen
  | f + 1, t =>
    match openAt t with
    | .found h => .ok h
    | .otherErr => .error .couldNotOpen
    | .notFound =>
      if 150 ≤ t then .error .timedOutInsert
      else connectWaitGo openAt f (t + 10)

/-- Model of `Stub::connect` (`src/yubikey.rs` lines 187-289): locate the device
(with the insertion wait when absent), re-read the public key from the
claimed slot and require its fingerprint to equal the stub's, request
and verify the PIN, and only then build a `Connection`.  The outer
`io::Result` layer of the source (callback transport failures) is
modelled as always succeeding. -/
def Stub.connect (env : ConnEnv) (s : Stub) : Except IdentityError Connection :=
  match
    (match env.first with
     | .found h => Except.ok h
     | .otherErr => Except.error IdErr.couldNotOpen
     | .notFound =>
       if env.msgAck then connectWaitGo env.openAt 15 0
       else Except.error IdErr.couldNotFind) with
  | .error k => .error ⟨s.identity_index, k⟩
  | .ok h =>
    match
      (match env.certRead with
       | .ok (.ecP256 pt) =>
         match Recipient.from_pubkey pt with
         | some pk => if env.tagFn pk = s.tag then some pk else none
         | none => none
       | _ => none) with
    | none => .error ⟨s.identity_index, .stubMismatch⟩
    | some pk =>
      match env.pinResponse with
      | none => .error ⟨s.identity_index, .pinRequired⟩
      | some pin =>
        if env.pinOk pin then
          .ok { yubikey := h, pk := pk, slot := s.slot, tag := s.tag }
        else .error ⟨s.identity_index, .invalidPin⟩

/-- The wrapping-key derivation performed on the unwrap side
(`src/yubikey.rs` lines 313-317): HKDF over the salt
`line.epk.as_bytes() || self.pk.as_bytes()` with the fixed label. -/
def unwrapWrappingKey (hkdf : List Nat → List Nat → List Nat → List Nat)
    (epk pk : Recipient) (sharedSecret : List Nat) : List Nat :=
  hkdf (epk.as_bytes ++ pk.as_bytes) STANZA_KEY_LABEL sharedSecret

/-- Environment for `Connection::unwrap_file_key`: the hardware ECDH
primitive `yubikey_piv::key::decrypt_data` (applied to the uncompressed
ephemeral-key bytes; `none` is a hardware failure), and the `age_core`
primitives `hkdf` and `aead_decrypt` (key, expected plaintext size,
ciphertext). -/
structure UnwrapEnv where
  decrypt_data : List Nat → Option (List Nat)
  hkdf : List Nat → List Nat → List Nat → List Nat
  aead_decrypt : List Nat → Nat → List Nat → Option (List Nat)

/-- Model of `Connection::unwrap_file_key` (`src/yubikey.rs` lines 300-327):
`assert_eq!(self.tag, line.tag)` panics on a non-matching stanza;
`line.epk.decompress()` unwraps (panicking if the stored point does not
decompress); hardware-decrypt failure and AEAD failure both yield
`Err(())`; the final `try_into().unwrap()` panics if the recovered
plaintext is not exactly `FILE_KEY_BYTES` long. -/
def Connection.unwrap_file_key (env : UnwrapEnv) (c : Connection)
    (line : RecipientLine) : PRes (Except Unit (List Nat)) :=
  if c.tag ≠ line.tag then .panic
  else
    match line.epk.decompress with
    | .panic => .panic
    | .val un =>
      match env.decrypt_data un.bytes with
      | none => .val (.error ())
      | some shared =>
        let enc_key := unwrapWrappingKey env.hkdf line.epk c.pk shared
        match env.aead_decrypt enc_key FILE_KEY_BYTES line.encrypted_file_key with
        | none => .val (.error ())
        | some pt =>
          if pt.length = FILE_KEY_BYTES then .val (.ok pt) else .panic

/-- The compressed x-coordinate bytes of the P-256 base point. -/
def gxBytes : List Nat := natToBe32 p256_GX

/-- The P-256 base point as a `Recipient` (its compressed encoding has
sign byte 3 since the base point's y-coordinate is odd). -/
def gRecipient : Recipient := ⟨.compressed 3 gxBytes⟩

/-- A concrete well-formed `RecipientLine` built on the base point. -/
def gLine : RecipientLine :=
  { tag := [0, 0, 0, 0], epk := gRecipient,
    encrypted_file_key := List.replicate 32 0 }

/-- A concrete stanza whose type tag matches, whose two arguments decode
correctly (4 fingerprint bytes; a valid compressed curve point), but
whose body is 31 bytes instead of 32. -/
def c2stanza : Stanza :=
  { tag := STANZA_TAG
    args := [b64encode [0, 0, 0, 0], b64encode (3 :: gxBytes)]
    body := List.replicate 31 0 }

/-- A concrete `WrapEnv`: the ephemeral public key returned by `ring` as
an uncompressed SEC-1 encoding, and primitives with the lengths
guaranteed by `age_core` (HKDF output is a 32-byte key; the ChaCha20-
Poly1305 `aead_encrypt` output is the plaintext length plus the 16-byte
authentication tag). -/
def c3env : WrapEnv :=
  { eskPubBytes := 4 :: List.replicate 64 0
    sharedSecret := []
    hkdf := fun _ _ _ => List.replicate 32 0
    aead_encrypt := fun _ m => m ++ List.replicate 16 0 }

/-- A concrete connection environment in which every step succeeds. -/
def c7env : ConnEnv :=
  { first := .found 7
    openAt := fun _ => .notFound
    msgAck := true
    certRead := .ok (.ecP256 (.uncompressed (List.replicate 32 0) (List.replicate 32 0)))
    pinResponse := some [1, 2, 3]
    pinOk := fun _ => true
    tagFn := fun _ => [9, 9, 9, 9] }

/-- A concrete connection environment whose re-read slot key has a
fingerprint differing from the stub's. -/
def c7envBad : ConnEnv :=
  { c7env with tagFn := fun _ => [8, 8, 8, 8] }

/-- A concrete stub matching `c7env`'s fingerprint function. -/
def c7stub : Stub :=
  { serial := 42, slot := 0x82, tag := [9, 9, 9, 9], identity_index := 0 }

/-- The connection that `Stub::connect` builds from `c7env` and
`c7stub`. -/
def c7conn : Connection :=
  { yubikey := 7, pk := ⟨.compressed 2 (List.replicate 32 0)⟩,
    slot := c7stub.slot, tag := c7stub.tag }

/-- A concrete unwrap environment: hardware decryption succeeds and the
AEAD opens to a 16-byte file key (`aead_decrypt` in `age_core` returns a
plaintext of exactly the requested size on success). -/
def c10env : UnwrapEnv :=
  { decrypt_data := fun _ => some [5]
    hkdf := fun _ _ _ => []
    aead_decrypt := fun _ n _ => some (List.replicate n 0) }

/-- A concrete established connection whose fingerprint matches
`gLine`'s tag. -/
def c10conn : Connection :=
  { yubikey := 1, pk := gRecipient, slot := 0x82, tag := [0, 0, 0, 0] }

/-- A concrete stub for the round-trip witness. -/
def c6stub : Stub :=
  { serial := 42, slot := 0x95, tag := [7, 7, 7, 7], identity_index := 0 }

/-- The base64 alphabet maps are mutually inverse on 6-bit values. -/
theorem b64val_b64chr : ∀ v, v < 64 → b64val (b64chr v) = some v := by decide

/-- Unpadded base64 encoding has the exact length that
`RecipientLine::from_stanza`'s `base64_arg` pre-check demands. -/
theorem b64encode_length : ∀ bs : List Nat, (b64encode bs).length = (4 * bs.length + 2) / 3
  | [] => rfl
  | [_] => by simp only [b64encode, List.length_cons, List.length_nil]
  | [_, _] => by simp only [b64encode, List.length_cons, List.length_nil]
  | b1 :: b2 :: b3 :: rest => by
    have ih := b64encode_length rest
    simp only [b64encode, List.length_cons]
    omega

/-- Unpadded base64 decoding inverts encoding on byte lists. -/
theorem b64decode_encode : ∀ bs : List Nat, (∀ b ∈ bs, b < 256) →
    b64decode (b64encode bs) = some bs
  | [], _ => rfl
  | [b1], h => by
    have hb1 : b1 < 256 := h b1 (by simp)
    simp only [b64encode, b64decode]
    rw [b64val_b64chr _ (by omega), b64val_b64chr _ (by omega)]
    simp only [if_pos (by omega : b1 % 4 * 16 % 16 = 0), Option.some.injEq]
    have : b1 / 4 * 4 + b1 % 4 * 16 / 16 = b1 := by omega
    rw [this]
  | [b1, b2], h => by
    have hb1 : b1 < 256 := h b1 (by simp)
    have hb2 : b2 < 256 := h b2 (by simp)
    simp only [b64encode, b64decode]
    rw [b64val_b64chr _ (by omega), b64val_b64chr _ (by omega),
      b64val_b64chr _ (by omega)]
    simp only [if_pos (by omega : b2 % 16 * 4 % 4 = 0), Option.some.injEq]
    have h1 : b1 / 4 * 4 + (b1 % 4 * 16 + b2 / 16) / 16 = b1 := by omega
    have h2 : (b1 % 4 * 16 + b2 / 16) % 16 * 16 + b2 % 16 * 4 / 4 = b2 := by omega
    rw [h1, h2]
  | b1 :: b2 :: b3 :: rest, h => by
    have hb1 : b1 < 256 := h b1 (by simp)
    have hb2 : b2 < 256 := h b2 (by simp)
    have hb3 : b3 < 256 := h b3 (by simp)
    have ih := b64decode_encode rest (fun b hb => h b (by simp [hb]))
    simp only [b64encode, b64decode]
    rw [b64val_b64chr _ (by omega), b64val_b64chr _ (by omega),
      b64val_b64chr _ (by omega), b64val_b64chr _ (by omega), ih]
    simp only [Option.some.injEq]
    have h1 : b1 / 4 * 4 + (b1 % 4 * 16 + b2 / 16) / 16 = b1 := by omega
    have h2 : (b1 % 4 * 16 + b2 / 16) % 16 * 16 + (b2 % 16 * 4 + b3 / 64) / 4 = b2 := by
      omega
    have h3 : (b2 % 16 * 4 + b3 / 64) % 4 * 64 + b3 % 64 = b3 := by omega
    rw [h1, h2, h3]

/-- Lemma: `base64_arg` accepts the encoding of a byte string of the right
length and returns exactly that byte string. -/
theorem base64_arg_encode (bs : List Nat) (n : Nat) (hl : bs.length = n)
    (hb : ∀ b ∈ bs, b < 256) : base64_arg (b64encode bs) n = some bs := by
  unfold base64_arg
  rw [b64encode_length, hl, if_neg (by omega), b64decode_encode bs hb]
  simp [hl]

/-- Any successful `base64_arg` result has exactly the requested
length. -/
theorem base64_arg_length (a : List Nat) (n : Nat) (bs : List Nat)
    (h : base64_arg a n = some bs) : bs.length = n := by
  unfold base64_arg at h
  by_cases hc : a.length ≠ (4 * n + 2) / 3
  · rw [if_pos hc] at h; exact absurd h (by simp)
  · rw [if_neg hc] at h
    cases hd : b64decode a with
    | none => rw [hd] at h; exact absurd h (by simp)
    | some d =>
      rw [hd] at h
      dsimp only at h
      by_cases hle : d.length ≤ n
      · rw [if_pos hle] at h
        have hbs := Option.some.inj h
        subst hbs
        simp only [List.length_append, List.length_replicate]
        omega
      · rw [if_neg hle] at h; exact absurd h (by simp)

/-- Case analysis for a successful `EncodedPoint::from_bytes`. -/
theorem secFromBytes_cases (bs : List Nat) (pt : SecPoint)
    (h : SecPoint.fromBytes bs = some pt) :
    (bs = [0] ∧ pt = .identity) ∨
    (∃ s x, bs = s :: x ∧ (s = 2 ∨ s = 3) ∧ x.length = 32 ∧ pt = .compressed s x) ∨
    (∃ rest, bs = 4 :: rest ∧ rest.length = 64 ∧
      pt = .uncompressed (rest.take 32) (rest.drop 32)) := by
  match bs with
  | [] => exact absurd h (by simp [SecPoint.fromBytes])
  | t :: rest =>
    simp only [SecPoint.fromBytes] at h
    split at h
    · split at h
      · rename_i ht hr
        subst ht; subst hr
        exact Or.inl ⟨rfl, (Option.some.inj h).symm⟩
      · exact absurd h (by simp)
    · split at h
      · split at h
        · rename_i ht0 hs hr
          exact Or.inr (Or.inl ⟨t, rest, rfl, hs, hr, (Option.some.inj h).symm⟩)
        · exact absurd h (by simp)
      · split at h
        · split at h
          · rename_i ht0 hs ht4 hr
            subst ht4
            exact Or.inr (Or.inr ⟨rest, rfl, hr, (Option.some.inj h).symm⟩)
          · exact absurd h (by simp)
        · exact absurd h (by simp)

/-- C1: the wrapping-key derivation is the same function on the wrap
side (`RecipientLine::wrap_file_key`) and the unwrap side
(`Connection::unwrap_file_key`): for every ephemeral public key,
recipient public key and raw shared secret, both sides hand HKDF the
salt `epk.as_bytes() || pk.as_bytes()` (ephemeral point first) and the
fixed context label `STANZA_KEY_LABEL`, so the two derivations are
extensionally equal. -/
theorem c1_wrap_unwrap_derivations_equal :
    ∀ (hkdf : List Nat → List Nat → List Nat → List Nat) (epk pk : Recipient)
      (sharedSecret : List Nat),
      wrapWrappingKey hkdf epk pk sharedSecret =
          hkdf (epk.as_bytes ++ pk.as_bytes) STANZA_KEY_LABEL sharedSecret ∧
      unwrapWrappingKey hkdf epk pk sharedSecret =
          hkdf (epk.as_bytes ++ pk.as_bytes) STANZA_KEY_LABEL sharedSecret ∧
      wrapWrappingKey hkdf epk pk sharedSecret =
        unwrapWrappingKey hkdf epk pk sharedSecret :=
  fun _ _ _ _ => ⟨rfl, rfl, rfl⟩

/-- C2, evaluated at the failing input: a stanza whose type tag equals
`STANZA_TAG` and whose two arguments are well-formed (a 4-byte
fingerprint and a valid compressed curve point), but whose body is 31
bytes instead of `ENCRYPTED_FILE_KEY_BYTES`, makes
`RecipientLine::from_stanza` return `None` — whereas the claim requires
`Some(Err(..))` for every malformed record with a matching tag, with
`None` reserved for tag mismatch. -/
theorem c2_matching_tag_malformed_body_returns_none :
    RecipientLine.from_stanza c2stanza = none ∧
    c2stanza.tag = STANZA_TAG ∧
    c2stanza.body.length ≠ ENCRYPTED_FILE_KEY_BYTES := by decide

/-- C4, evaluated at the failing inputs: `Stub::from_bytes` panics
(out-of-range slice indexing) on buffers shorter than 9 bytes, and
succeeds on a 10-byte buffer with a recognized slot code, whereas the
claim requires `None` (no panic, no success) for every buffer whose
length is not exactly 9. -/
theorem c4_from_bytes_wrong_length_behavior :
    Stub.from_bytes [] 0 = .panic ∧
    Stub.from_bytes [1, 0, 0, 0] 0 = .panic ∧
    Stub.from_bytes [1, 0, 0, 0, 0x82, 9, 9, 9, 9, 77] 0 =
      .val (some { serial := 1, slot := 0x82, tag := [9, 9, 9, 9],
                   identity_index := 0 }) ∧
    ([] : List Nat).length ≠ 9 ∧
    [1, 0, 0, 0, 0x82, 9, 9, 9, 9, 77].length ≠ 9 := by decide

/-- C3, counterexample to the claim as stated: at a concrete wrap (the
base point as recipient, a file key of `FILE_KEY_BYTES` bytes — the only
length `age_core::format::FileKey` admits — and AEAD/HKDF primitives
with their crate-guaranteed output lengths), the stanza's
encrypted-file-key field has length 32, which is not `32 + tag_len`
(48), and the file key itself is 16 bytes, not 32. -/
theorem c3_counterexample :
    RecipientLine.wrap_file_key c3env (fun _ => [0, 0, 0, 0])
        (List.replicate FILE_KEY_BYTES 0) gRecipient =
      .val { tag := [0, 0, 0, 0], epk := ⟨.compressed 2 (List.replicate 32 0)⟩,
             encrypted_file_key := List.replicate 32 0 } ∧
    (List.replicate 32 0 : List Nat).length ≠ 32 + 16 ∧
    (List.replicate FILE_KEY_BYTES 0 : List Nat).length ≠ 32 := by decide

/-- C3 as amended: `wrap_file_key` takes a 16-byte file key
(`FILE_KEY_BYTES`), and its authenticated encryption produces a
ciphertext of exactly `FILE_KEY_BYTES + 16 = 32` bytes (file-key length
plus the AEAD tag overhead), which is `ENCRYPTED_FILE_KEY_BYTES`, the
length stored in the stanza's encrypted-file-key field. -/
theorem c3_wrap_ciphertext_length (env : WrapEnv)
    (tagFn : Recipient → List Nat) (file_key : List Nat) (pk : Recipient)
    (hAead : ∀ k m, (env.aead_encrypt k m).length = m.length + 16)
    (hfk : file_key.length = FILE_KEY_BYTES)
    (hesk : (Recipient.from_bytes env.eskPubBytes).isSome = true)
    (hpk : pk.point.decompressE.isSome = true) :
    ∃ line, RecipientLine.wrap_file_key env tagFn file_key pk = .val line ∧
      line.encrypted_file_key.length = FILE_KEY_BYTES + 16 ∧
      line.encrypted_file_key.length = ENCRYPTED_FILE_KEY_BYTES := by
  obtain ⟨epk, hepk⟩ := Option.isSome_iff_exists.mp hesk
  obtain ⟨un, hun⟩ := Option.isSome_iff_exists.mp hpk
  have hlen :
      (env.aead_encrypt (wrapWrappingKey env.hkdf epk pk env.sharedSecret)
        file_key).length = 32 := by
    rw [hAead, hfk]
    decide
  refine ⟨{ tag := tagFn pk, epk := epk,
            encrypted_file_key :=
              env.aead_encrypt (wrapWrappingKey env.hkdf epk pk env.sharedSecret)
                file_key },
          ?_, hlen.trans (by decide), hlen.trans (by decide)⟩
  unfold RecipientLine.wrap_file_key
  rw [hepk]
  dsimp only
  unfold Recipient.decompress
  rw [hun]
  dsimp only
  rw [if_pos (hlen.trans (by decide))]

/-- Witness for the amended C3 at a concrete environment. -/
theorem c3_wrap_ciphertext_length_witness :
    ∃ line, RecipientLine.wrap_file_key c3env (fun _ => [0, 0, 0, 0])
        (List.replicate FILE_KEY_BYTES 0) gRecipient = .val line ∧
      line.encrypted_file_key.length = FILE_KEY_BYTES + 16 ∧
      line.encrypted_file_key.length = ENCRYPTED_FILE_KEY_BYTES :=
  c3_wrap_ciphertext_length c3env (fun _ => [0, 0, 0, 0])
    (List.replicate FILE_KEY_BYTES 0) gRecipient
    (fun k m => by simp [c3env])
    (by decide) (by decide) (by decide)

/-- C5, counterexample to the claim as stated: `Recipient::from_bytes`
accepts the uncompressed encoding of `(0, 0)`, which is not an on-curve
point, and it accepts the SEC-1 identity encoding, whose `as_bytes` is
1 byte rather than the claimed 33-byte compressed encoding. -/
theorem c5_counterexample :
    Recipient.from_bytes (4 :: (List.replicate 32 0 ++ List.replicate 32 0)) =
      some ⟨.compressed 2 (List.replicate 32 0)⟩ ∧
    p256_on_curve (beNat (List.replicate 32 0)) (beNat (List.replicate 32 0)) = false ∧
    Recipient.from_bytes [0] = some ⟨.identity⟩ ∧
    (Recipient.as_bytes ⟨.identity⟩).length ≠ 33 := by decide

/-- C5 as amended: `from_bytes` accepts a compressed encoding exactly
when its x-coordinate decompresses to a valid on-curve point, accepts
every well-formed-length uncompressed encoding with no on-curve
validation (normalizing it to compressed form, keeping only the parity
of `y`), accepts the identity encoding as-is, and every constructed
`Recipient` has either the 33-byte compressed form or the 1-byte
identity form. -/
theorem c5_from_bytes_characterization :
    (∀ s x, (s = 2 ∨ s = 3) → x.length = 32 →
      Recipient.from_bytes (s :: x) =
        (if p256_decompress_ok x then some ⟨.compressed s x⟩ else none)) ∧
    (∀ x y, x.length = 32 → y.length = 32 →
      Recipient.from_bytes (4 :: (x ++ y)) =
        some ⟨.compressed (2 + beNat y % 2) x⟩) ∧
    Recipient.from_bytes [0] = some ⟨.identity⟩ ∧
    (∀ bs r, Recipient.from_bytes bs = some r →
      (Recipient.as_bytes r).length = 33 ∨ Recipient.as_bytes r = [0]) := by
  refine ⟨?_, ?_, by decide, ?_⟩
  · intro s x hs hx
    rcases hs with h | h <;> subst h <;>
      simp [Recipient.from_bytes, SecPoint.fromBytes, hx, Recipient.from_pubkey]
  · intro x y hx hy
    have hxy : (x ++ y).length = 64 := by simp [hx, hy]
    have htake : (x ++ y).take 32 = x := by
      rw [← hx]; exact List.take_left x y
    have hdrop : (x ++ y).drop 32 = y := by
      rw [← hx]; exact List.drop_left x y
    simp [Recipient.from_bytes, SecPoint.fromBytes, hxy, htake, hdrop,
      Recipient.from_pubkey, SecPoint.compress]
  · intro bs r h
    unfold Recipient.from_bytes at h
    cases hp : SecPoint.fromBytes bs with
    | none => rw [hp] at h; exact absurd h (by simp)
    | some pt =>
      rw [hp] at h
      dsimp only at h
      rcases secFromBytes_cases bs pt hp with ⟨_, hpt⟩ | ⟨s, x, _, hs, hx, hpt⟩ |
        ⟨rest, _, hr, hpt⟩
      · subst hpt
        simp only [Recipient.from_pubkey, SecPoint.compress] at h
        rw [← Option.some.inj h]
        exact Or.inr rfl
      · subst hpt
        simp only [Recipient.from_pubkey] at h
        split at h
        · rw [← Option.some.inj h]
          left
          simp [Recipient.as_bytes, SecPoint.bytes, hx]
        · exact absurd h (by simp)
      · subst hpt
        simp only [Recipient.from_pubkey, SecPoint.compress] at h
        rw [← Option.some.inj h]
        left
        simp [Recipient.as_bytes, SecPoint.bytes, List.length_take, hr]

/-- Witness for the amended C5 at concrete inputs: the base point's
compressed encoding, the uncompressed encoding of `(0, 0)`, and the
identity encoding. -/
theorem c5_from_bytes_characterization_witness :
    Recipient.from_bytes (3 :: gxBytes) =
      (if p256_decompress_ok gxBytes then some ⟨.compressed 3 gxBytes⟩ else none) ∧
    Recipient.from_bytes (4 :: (List.replicate 32 0 ++ List.replicate 32 0)) =
      some ⟨.compressed (2 + beNat (List.replicate 32 0) % 2) (List.replicate 32 0)⟩ ∧
    ((Recipient.as_bytes ⟨.identity⟩).length = 33 ∨
      Recipient.as_bytes ⟨.identity⟩ = [0]) :=
  ⟨c5_from_bytes_characterization.1 3 gxBytes (Or.inr rfl) (by decide),
   c5_from_bytes_characterization.2.1 (List.replicate 32 0) (List.replicate 32 0)
     (by decide) (by decide),
   c5_from_bytes_characterization.2.2.2 [0] ⟨.identity⟩ (by decide)⟩

/-- C6: for every valid stub contents (a u32 serial, a recognized slot
code, a 4-byte fingerprint) and any transient identity index `i`,
`Stub::from_bytes(Stub::to_bytes(s), i)` returns `Some` of a stub equal
to `s` under the `PartialEq` impl — equality of the 9-byte encoding
only, the returned stub carrying the new transient index `i`. -/
theorem c6_stub_roundtrip (s : Stub) (i : Nat)
    (hser : s.serial < 2 ^ 32) (hslot : recognizedSlot s.slot = true)
    (htag : s.tag.length = 4) :
    Stub.from_bytes s.to_bytes i =
      .val (some { serial := s.serial, slot := s.slot, tag := s.tag,
                   identity_index := i }) ∧
    Stub.beq { serial := s.serial, slot := s.slot, tag := s.tag,
               identity_index := i } s = true := by
  have hbytes : s.to_bytes =
      s.serial % 256 :: s.serial / 256 % 256 :: s.serial / 256 ^ 2 % 256 ::
        s.serial / 256 ^ 3 % 256 :: s.slot :: s.tag := by
    simp [Stub.to_bytes, serialToLe]
  constructor
  · rw [hbytes]
    unfold Stub.from_bytes
    rw [if_neg (by simp [htag]), if_neg (by simp [htag])]
    dsimp only [List.getD, List.get?]
    rw [if_neg (by simp [hslot]), if_neg (by simp [htag])]
    dsimp only [Option.getD]
    have hserial :
        leNat ((s.serial % 256 :: s.serial / 256 % 256 :: s.serial / 256 ^ 2 % 256 ::
          s.serial / 256 ^ 3 % 256 :: s.slot :: s.tag).take 4) = s.serial := by
      simp only [List.take, leNat, List.foldr]
      omega
    rw [hserial]
    have htake : ((s.serial % 256 :: s.serial / 256 % 256 :: s.serial / 256 ^ 2 % 256 ::
        s.serial / 256 ^ 3 % 256 :: s.slot :: s.tag).drop 5).take 4 = s.tag := by
      simp only [List.drop]
      rw [← htag, List.take_length]
    rw [htake]
  · simp [Stub.beq, Stub.to_bytes]

/-- Witness for C6 at a concrete stub and index. -/
theorem c6_stub_roundtrip_witness :
    Stub.from_bytes c6stub.to_bytes 5 =
      .val (some { serial := c6stub.serial, slot := c6stub.slot,
                   tag := c6stub.tag, identity_index := 5 }) ∧
    Stub.beq { serial := c6stub.serial, slot := c6stub.slot,
               tag := c6stub.tag, identity_index := 5 } c6stub = true :=
  c6_stub_roundtrip c6stub 5 (by decide) (by decide) (by decide)

/-- C7: a successfully established connection always stores the
re-verified key, whose fingerprint equals the stub's stored fingerprint;
and whenever the device opens but the slot holds no P-256 key, the
certificate read fails, or the re-read key's fingerprint differs, the
result is the per-identity stub-mismatch error, never a session with a
substituted key. -/
theorem c7_connect_fingerprint_invariant :
    (∀ env s c, Stub.connect env s = .ok c →
      env.tagFn c.pk = s.tag ∧ c.tag = s.tag) ∧
    (∀ env s h pt, env.first = .found h → env.certRead = .ok (.ecP256 pt) →
      (∀ pk, Recipient.from_pubkey pt = some pk → env.tagFn pk ≠ s.tag) →
      Stub.connect env s = .error ⟨s.identity_index, .stubMismatch⟩) ∧
    (∀ env s h, env.first = .found h → env.certRead = .ok .other →
      Stub.connect env s = .error ⟨s.identity_index, .stubMismatch⟩) ∧
    (∀ env s h, env.first = .found h → env.certRead = .err →
      Stub.connect env s = .error ⟨s.identity_index, .stubMismatch⟩) := by
  refine ⟨?_, ?_, ?_, ?_⟩
  · intro env s c h
    unfold Stub.connect at h
    split at h
    · exact absurd h (by simp)
    · split at h
      · exact absurd h (by simp)
      · rename_i pk hpk
        split at h
        · exact absurd h (by simp)
        · split at h
          · -- success: extract the filter condition from hpk
            have hc := Except.ok.inj h
            subst hc
            refine ⟨?_, rfl⟩
            · -- hpk : (match env.certRead with ...) = some pk
              split at hpk
              · split at hpk
                · split at hpk
                  · rename_i htagEq
                    obtain rfl := Option.some.inj hpk
                    simpa using htagEq
                  · exact absurd hpk (by simp)
                · exact absurd hpk (by simp)
              · exact absurd hpk (by simp)
          · exact absurd h (by simp)
  · intro env s h pt hfirst hcert hne
    unfold Stub.connect
    rw [hfirst, hcert]
    dsimp only
    cases hfp : Recipient.from_pubkey pt with
    | none => rfl
    | some pk =>
      dsimp only
      rw [if_neg (hne pk hfp)]
  · intro env s h hfirst hcert
    unfold Stub.connect
    rw [hfirst, hcert]
  · intro env s h hfirst hcert
    unfold Stub.connect
    rw [hfirst, hcert]

/-- Witness for C7: a concrete environment in which every step succeeds
(first part), and concrete environments exhibiting the fingerprint
mismatch and missing-key error paths. -/
theorem c7_connect_fingerprint_invariant_witness :
    (c7env.tagFn c7conn.pk = c7stub.tag ∧ c7conn.tag = c7stub.tag) ∧
    Stub.connect c7envBad c7stub =
      .error ⟨c7stub.identity_index, .stubMismatch⟩ :=
  ⟨c7_connect_fingerprint_invariant.1 c7env c7stub c7conn (by decide),
   c7_connect_fingerprint_invariant.2.1 c7envBad c7stub 7
     (.uncompressed (List.replicate 32 0) (List.replicate 32 0))
     (by decide) (by decide)
     (fun pk _ => by simp [c7envBad, c7env, c7stub])⟩

/-- Shifting a 10-stride range-map by one element. -/
theorem map_range_succ_shift (n c : Nat) :
    (List.range (n + 1)).map (fun i => c + 10 * i) =
      c :: (List.range n).map (fun i => c + 10 + 10 * i) := by
  rw [List.range_succ_eq_map, List.map_cons, List.map_map]
  have harg : ((fun i => c + 10 * i) ∘ Nat.succ) = fun i => c + 10 + 10 * i := by
    funext i
    simp only [Function.comp_apply]
    omega
  rw [harg]
  simp

/-- Full characterization of the polling loop when the device appears at
time `a` (tenths of a second) and stays present, for any loop tail
whose probes run at `t, t + 10, …, 150`. -/
theorem waitGo_appear_spec (a : Nat) :
    ∀ f t, t + 10 * f = 150 →
      waitGo (fun u => decide (a ≤ u)) f t =
        if a ≤ t then (.ok t, [t])
        else if 150 < a then
          (.timedOut, (List.range (f + 1)).map (fun i => t + 10 * i))
        else
          (.ok (10 * ((a + 9) / 10)),
            (List.range ((a + 9) / 10 + 1 - t / 10)).map (fun i => t + 10 * i))
  | 0, t, ht => by
    have h150 : t = 150 := by omega
    subst h150
    by_cases ha : a ≤ 150
    · simp [waitGo, ha]
    · simp [waitGo, ha, show 150 < a by omega]
      rfl
  | f + 1, t, ht => by
    have ih := waitGo_appear_spec a f (t + 10) (by omega)
    by_cases hat : a ≤ t
    · simp [waitGo, hat]
    · have hnotstop : ¬ 150 ≤ t := by omega
      rw [waitGo]
      rw [if_neg (by simpa using hat), if_neg hnotstop, ih]
      by_cases ha150 : 150 < a
      · simp only [if_neg (show ¬ a ≤ t + 10 by omega), if_pos ha150,
          if_neg hat]
        conv_rhs => rw [map_range_succ_shift (f + 1) t]
      · simp only [if_neg hat, if_neg ha150]
        by_cases hat10 : a ≤ t + 10
        · simp only [if_pos hat10]
          have hceil : (a + 9) / 10 = t / 10 + 1 := by omega
          have hcount : t / 10 + 1 + 1 - t / 10 = 2 := by omega
          have hok : 10 * (t / 10 + 1) = t + 10 := by omega
          rw [hceil, hcount, hok]
          conv_rhs => rw [map_range_succ_shift 1 t]
          rfl
        · simp only [if_neg hat10]
          have hm : (a + 9) / 10 + 1 - t / 10 =
              ((a + 9) / 10 + 1 - (t + 10) / 10) + 1 := by omega
          rw [hm]
          conv_rhs =>
            rw [map_range_succ_shift ((a + 9) / 10 + 1 - (t + 10) / 10) t]

/-- C8: the device-presence wait polls at a fixed 1-second cadence
starting at the instant the wait begins (probe times `0s, 1s, …, 15s`),
and returns `TimedOut` exactly when the device is still absent once 15
seconds have elapsed: a device appearing at time `a` tenths of a second
is picked up at the first whole-second poll `≥ a` whenever `a ≤ 150`
(e.g. `a = 149`, 14.9s, succeeds at the 15s poll), while `a > 150`
(e.g. `a = 151`, 15.1s) yields `TimedOut` after the full poll sequence
`0, 10, …, 150`. -/
theorem c8_wait_for_readers_boundary :
    ∀ a : Nat,
      wait_for_readers (fun t => decide (a ≤ t)) =
        (if 150 < a then
          (.timedOut, (List.range 16).map (fun i => 10 * i))
        else
          (.ok (10 * ((a + 9) / 10)),
            (List.range ((a + 9) / 10 + 1)).map (fun i => 10 * i))) ∧
      ((wait_for_readers (fun t => decide (a ≤ t))).1 = .timedOut ↔ 150 < a) := by
  intro a
  have h := waitGo_appear_spec a 15 0 (by omega)
  have hmain :
      wait_for_readers (fun t => decide (a ≤ t)) =
        if 150 < a then
          (.timedOut, (List.range 16).map (fun i => 10 * i))
        else
          (.ok (10 * ((a + 9) / 10)),
            (List.range ((a + 9) / 10 + 1)).map (fun i => 10 * i)) := by
    unfold wait_for_readers
    rw [h]
    by_cases ha : a ≤ 0
    · have h0 : a = 0 := by omega
      subst h0
      decide
    · rw [if_neg ha]
      by_cases h150 : 150 < a
      · rw [if_pos h150, if_pos h150]
        simp
      · rw [if_neg h150, if_neg h150]
        simp
  refine ⟨hmain, ?_⟩
  rw [hmain]
  by_cases h150 : 150 < a
  · simp [h150]
  · simp [h150]

/-- C9: stanza serialization round-trips through parsing: any
`RecipientLine` with a 4-byte tag, a valid compressed ephemeral point
and a 32-byte encrypted file key is converted to a generic stanza (two
unpadded-base64 arguments and a raw body) that `from_stanza` parses
back to `Some(Ok(..))` of an identical line. -/
theorem c9_stanza_roundtrip (line : RecipientLine) (s : Nat) (x : List Nat)
    (htag : line.tag.length = 4) (htagB : ∀ b ∈ line.tag, b < 256)
    (hepk : line.epk = ⟨.compressed s x⟩) (hs : s = 2 ∨ s = 3)
    (hx : x.length = 32) (hxB : ∀ b ∈ x, b < 256)
    (hvalid : p256_decompress_ok x = true)
    (hbody : line.encrypted_file_key.length = ENCRYPTED_FILE_KEY_BYTES) :
    RecipientLine.from_stanza line.toStanza = some (.ok line) := by
  have hfb : Recipient.from_bytes (s :: x) = some ⟨.compressed s x⟩ := by
    rcases hs with h | h <;> subst h <;>
      simp [Recipient.from_bytes, SecPoint.fromBytes, hx, Recipient.from_pubkey,
        hvalid]
  have hsx : (s :: x).length = EPK_BYTES := by
    simp [hx, EPK_BYTES]
  have hsxB : ∀ b ∈ s :: x, b < 256 := by
    intro b hb
    rcases List.mem_cons.mp hb with h | h
    · subst h
      rcases hs with h | h <;> subst h <;> omega
    · exact hxB b h
  unfold RecipientLine.toStanza RecipientLine.from_stanza
  rw [if_neg (by simp)]
  dsimp only [List.get?, Option.bind]
  rw [hepk]
  dsimp only [Recipient.as_bytes, SecPoint.bytes]
  rw [base64_arg_encode line.tag TAG_BYTES htag htagB,
    base64_arg_encode (s :: x) EPK_BYTES hsx hsxB]
  dsimp only [Option.bind]
  rw [hfb]
  dsimp only
  rw [if_pos hbody, ← hepk]

/-- Witness for C9 at a concrete line built on the P-256 base point. -/
theorem c9_stanza_roundtrip_witness :
    RecipientLine.from_stanza gLine.toStanza = some (.ok gLine) :=
  c9_stanza_roundtrip gLine 3 gxBytes (by decide) (by decide) rfl
    (Or.inr rfl) (by decide) (by decide) (by decide) (by decide)

/-- C10: `Connection::unwrap_file_key` has the precondition that the
stanza's tag equals the session's fingerprint: on a non-matching stanza
it panics (the `assert_eq!`); on a matching stanza whose ephemeral key
is a valid compressed point — an invariant of every line produced by
`from_stanza`, as the last conjunct shows — it never panics, returning
`Err(())` exactly on hardware-decrypt or AEAD failure and `Ok` with the
recovered 16-byte file key otherwise. -/
theorem c10_unwrap_precondition_totality (env : UnwrapEnv) (c : Connection)
    (line : RecipientLine)
    (hAead : ∀ k n ct pt, env.aead_decrypt k n ct = some pt → pt.length = n) :
    (c.tag ≠ line.tag → Connection.unwrap_file_key env c line = .panic) ∧
    (∀ s x, c.tag = line.tag → line.epk = ⟨.compressed s x⟩ →
      p256_decompress_ok x = true →
      ∃ un, line.epk.point.decompressE = some un ∧
        Connection.unwrap_file_key env c line =
          (match env.decrypt_data un.bytes with
           | none => .val (.error ())
           | some shared =>
             match env.aead_decrypt
                 (unwrapWrappingKey env.hkdf line.epk c.pk shared)
                 FILE_KEY_BYTES line.encrypted_file_key with
             | none => .val (.error ())
             | some pt => .val (.ok pt))) ∧
    (∀ st l, RecipientLine.from_stanza st = some (.ok l) →
      ∃ s x, l.epk = ⟨.compressed s x⟩ ∧ p256_decompress_ok x = true) := by
  refine ⟨?_, ?_, ?_⟩
  · intro hne
    unfold Connection.unwrap_file_key
    rw [if_pos hne]
  · intro s x heq hepk hvalid
    have hde : line.epk.point.decompressE ≠ none := by
      rw [hepk]
      dsimp only [SecPoint.decompressE]
      have h1 : beNat x < p256_P := by
        have := hvalid
        unfold p256_decompress_ok at this
        simp only [Bool.and_eq_true, decide_eq_true_eq, beq_iff_eq] at this
        exact this.1
      have h2 : p256_sqrtCand (p256_rhs (beNat x)) *
          p256_sqrtCand (p256_rhs (beNat x)) % p256_P = p256_rhs (beNat x) := by
        have := hvalid
        unfold p256_decompress_ok at this
        simp only [Bool.and_eq_true, decide_eq_true_eq, beq_iff_eq] at this
        exact this.2
      rw [if_pos h1, if_pos h2]
      simp
    cases hun : line.epk.point.decompressE with
    | none => exact absurd hun hde
    | some un =>
      refine ⟨un, rfl, ?_⟩
      unfold Connection.unwrap_file_key
      rw [if_neg (by simp [heq])]
      unfold Recipient.decompress
      rw [hun]
      dsimp only
      cases hdd : env.decrypt_data un.bytes with
      | none => rfl
      | some shared =>
        dsimp only
        cases had : env.aead_decrypt
            (unwrapWrappingKey env.hkdf line.epk c.pk shared)
            FILE_KEY_BYTES line.encrypted_file_key with
        | none => rfl
        | some pt =>
          dsimp only
          rw [if_pos (hAead _ _ _ _ had)]
  · intro st l h
    unfold RecipientLine.from_stanza at h
    split at h
    · exact absurd h (by simp)
    · rename_i htagSt
      cases htg : (st.args.get? 0).bind (fun a => base64_arg a TAG_BYTES) with
      | none =>
        rw [htg] at h
        cases hek : ((st.args.get? 1).bind (fun a => base64_arg a EPK_BYTES)).bind
            Recipient.from_bytes with
        | none => rw [hek] at h; exact absurd (Option.some.inj h) (by simp)
        | some e => rw [hek] at h; exact absurd (Option.some.inj h) (by simp)
      | some t =>
        rw [htg] at h
        cases hek : ((st.args.get? 1).bind (fun a => base64_arg a EPK_BYTES)).bind
            Recipient.from_bytes with
        | none => rw [hek] at h; exact absurd (Option.some.inj h) (by simp)
        | some e =>
          rw [hek] at h
          dsimp only at h
          obtain ⟨bs, hbs, hfb⟩ := Option.bind_eq_some.mp hek
          obtain ⟨a1, _, harg⟩ := Option.bind_eq_some.mp hbs
          have hlen : bs.length = EPK_BYTES := base64_arg_length a1 EPK_BYTES bs harg
          have hl : l.epk = e := by
            split at h
            · have := Except.ok.inj (Option.some.inj h)
              rw [← this]
            · exact absurd h (by simp)
          unfold Recipient.from_bytes at hfb
          cases hp : SecPoint.fromBytes bs with
          | none => rw [hp] at hfb; exact absurd hfb (by simp)
          | some pt =>
            rw [hp] at hfb
            dsimp only at hfb
            rcases secFromBytes_cases bs pt hp with ⟨hb0, hpt⟩ |
              ⟨s, x, hbsx, hsv, hxl, hpt⟩ | ⟨rest, hbr, hrl, hpt⟩
            · rw [hb0] at hlen
              exact absurd hlen (by simp [EPK_BYTES])
            · subst hpt
              simp only [Recipient.from_pubkey] at hfb
              split at hfb
              · rename_i hok
                exact ⟨s, x, by rw [hl, ← Option.some.inj hfb], hok⟩
              · exact absurd hfb (by simp)
            · rw [hbr] at hlen
              simp [EPK_BYTES] at hlen
              omega

/-- Witness for C10: a concrete non-matching call panics, and a concrete
matching call on the base-point line runs to completion, returning the
recovered 16-byte file key. -/
theorem c10_unwrap_precondition_totality_witness :
    Connection.unwrap_file_key c10env
        { yubikey := 1, pk := gRecipient, slot := 0x95, tag := [1, 1, 1, 1] }
        gLine = .panic ∧
    Connection.unwrap_file_key c10env c10conn gLine =
      .val (.ok (List.replicate 16 0)) := by
  have hA : ∀ k n ct pt, c10env.aead_decrypt k n ct = some pt → pt.length = n := by
    intro k n ct pt h
    simp only [c10env, Option.some.injEq] at h
    rw [← h]
    simp
  constructor
  · exact (c10_unwrap_precondition_totality c10env
      { yubikey := 1, pk := gRecipient, slot := 0x95, tag := [1, 1, 1, 1] }
      gLine hA).1 (by decide)
  · obtain ⟨un, hun, heq⟩ :=
      (c10_unwrap_precondition_totality c10env c10conn gLine hA).2.1 3 gxBytes
        (by decide) rfl (by decide)
    rw [heq]
    simp [c10env]
    decide
